import Mathlib

/-!
Verification of the self-update engine of `monitor-profile-swapper`
(`updater.py`) against its natural-language specification.

Paths are modelled in POSIX form: an absolute path is a list of components
(`[]` is the filesystem root `/`).  Machine behaviour of the Python standard
library functions used by the code (`os.path.normpath`, `os.path.join`,
`os.path.commonpath`, `str.strip`, `int(_, 16)`, `urllib.parse.urlparse`,
`packaging.version`) is embedded to the extent the code exercises it.
-/

namespace Updater

/-! ## POSIX path model -/

/-- Split a character list on a separator, keeping empty fields
(`"a//b".split "/" = ["a", "", "b"]`). -/
def splitCharsOn (sep : Char) : List Char → List (List Char)
  | [] => [[]]
  | c :: cs =>
    match splitCharsOn sep cs with
    | [] => [[]]
    | g :: gs => if c = sep then [] :: g :: gs else (c :: g) :: gs

/-- Split a path string on `'/'`, as `posixpath` does internally. -/
def splitSlash (s : String) : List String :=
  (splitCharsOn '/' s.toList).map String.mk

/-- One step of lexical path normalization: `""` and `"."` are dropped,
`".."` pops the last component (a no-op at the root, as for an absolute
path), anything else is appended. -/
def normStep (acc : List String) (c : String) : List String :=
  if c = "" ∨ c = "." then acc
  else if c = ".." then acc.dropLast
  else acc ++ [c]

/-- `os.path.normpath` on an absolute path, acting on raw components. -/
def normAbs (comps : List String) : List String :=
  comps.foldl normStep []

/-- `filename.startswith "/"`: the joined name is itself absolute. -/
def startsWithSlash (s : String) : Bool := s.toList.head? == some '/'

/-- `os.path.abspath (os.path.normpath (os.path.join target filename))` for an
absolute, already-normalized target directory.  `posixpath.join` discards the
base entirely when the joined name is itself absolute. -/
def resolveMember (target : List String) (filename : String) : List String :=
  if startsWithSlash filename then normAbs (splitSlash filename)
  else normAbs (target ++ splitSlash filename)

/-- `os.path.commonpath [root, p] = root` for two absolute paths: `root` is a
component-wise prefix of `p` (equality included). -/
def isUnder (root p : List String) : Bool := p.take root.length == root

/-! ## safe_extract (updater.py lines 85-121) -/

/-- The slice of a `zipfile.ZipInfo` record that `safe_extract` inspects. -/
structure ZipMember where
  filename : String
  external_attr : Nat
deriving DecidableEq, Repr

/-- `str.strip "/\\"`: remove leading and trailing `/` and `\` characters. -/
def stripSeps (s : String) : String :=
  String.mk (((s.toList.dropWhile fun c => c = '/' ∨ c = '\\').reverse.dropWhile
    fun c => c = '/' ∨ c = '\\').reverse)

/-- `stat.S_IFLNK` test on the upper 16 bits of `external_attr`. -/
def isSymlinkAttr (attr : Nat) : Bool :=
  (attr >>> 16) &&& 0o170000 == 0o120000

/-- The reasons `safe_extract` raises; in the source every one of them is the
single exception class `PathTraversalError`. -/
inductive ExtractError
  | emptyFilename
  | onlySeparators (name : String)
  | pathTraversal (name : String)
  | symlink (name : String)
deriving DecidableEq, Repr

/-- The per-member validation of `safe_extract`, in source order: empty name,
separator-only name, `commonpath` containment, symlink attribute.  On success
it returns the resolved destination path of the member. -/
def checkMember (target : List String) (m : ZipMember) :
    Except ExtractError (List String) :=
  if m.filename = "" then .error .emptyFilename
  else if stripSeps m.filename = "" then .error (.onlySeparators m.filename)
  else
    let memberPath := resolveMember target m.filename
    if isUnder target memberPath = false then .error (.pathTraversal m.filename)
    else if isSymlinkAttr m.external_attr then .error (.symlink m.filename)
    else .ok memberPath

/-- Member loop of `safe_extract`: validated members are extracted one by one
(first component: destination paths written so far); the first failing member
aborts the loop (second component). -/
def safeExtractGo (target : List String) :
    List ZipMember → List (List String) × Option ExtractError
  | [] => ([], none)
  | m :: ms =>
    match checkMember target m with
    | .error e => ([], some e)
    | .ok p =>
      let rest := safeExtractGo target ms
      (p :: rest.1, rest.2)

/-- `safe_extract zip_ref target_dir`: normalizes the target directory
(`os.path.abspath`) and processes the member list in order.  Returns the
destination paths actually written and the error that aborted the run, if
any. -/
def safe_extract (targetDir : List String) (members : List ZipMember) :
    List (List String) × Option ExtractError :=
  safeExtractGo (normAbs targetDir) members

/-- Modelled from the spec: "strictly a descendant of the extraction root" —
the resolved path lies strictly below the root. -/
def strictDescendant (root p : List String) : Bool :=
  isUnder root p && p != root

/-! ### Basic path lemmas -/

theorem normStep_ne (acc : List String) (c : String) (h : c ≠ "") (h' : c ≠ ".")
    (h'' : c ≠ "..") : normStep acc c = acc ++ [c] := by
  simp [normStep, h, h', h'']

theorem normAbs_goodComponents (comps : List String) :
    ∀ c ∈ normAbs comps, c ≠ "" ∧ c ≠ "." ∧ c ≠ ".." := by
  suffices h : ∀ acc, (∀ c ∈ acc, c ≠ "" ∧ c ≠ "." ∧ c ≠ "..") →
      ∀ c ∈ comps.foldl normStep acc, c ≠ "" ∧ c ≠ "." ∧ c ≠ ".." by
    exact h [] (by simp)
  induction comps with
  | nil => intro acc hacc; simpa using hacc
  | cons x xs ih =>
    intro acc hacc
    intro c hc
    refine ih (normStep acc x) ?_ c hc
    intro d hd
    unfold normStep at hd
    by_cases hx : x = "" ∨ x = "."
    · simp [hx] at hd; exact hacc d hd
    · by_cases hx2 : x = ".."
      · simp [hx, hx2] at hd
        exact hacc d (List.dropLast_subset _ hd)
      · simp [hx, hx2] at hd
        rcases hd with hd | hd
        · exact hacc d hd
        · push_neg at hx
          subst hd
          exact ⟨hx.1, hx.2, hx2⟩

/-- Folding normalization over already-good components just appends them. -/
theorem foldl_normStep_good (acc : List String) (l : List String)
    (h : ∀ c ∈ l, c ≠ "" ∧ c ≠ "." ∧ c ≠ "..") :
    l.foldl normStep acc = acc ++ l := by
  induction l generalizing acc with
  | nil => simp
  | cons x xs ih =>
    have hx := h x (by simp)
    rw [List.foldl_cons, normStep_ne acc x hx.1 hx.2.1 hx.2.2,
      ih (acc ++ [x]) (fun c hc => h c (by simp [hc]))]
    simp

theorem normAbs_idem (comps : List String) :
    normAbs (normAbs comps) = normAbs comps := by
  have := foldl_normStep_good [] (normAbs comps) (normAbs_goodComponents comps)
  simpa [normAbs] using this

theorem isUnder_iff (root p : List String) :
    isUnder root p = true ↔ p.take root.length = root := by
  simp [isUnder]

/-! ### safe_extract lemmas -/

theorem checkMember_ok (t : List String) (m : ZipMember) (p : List String)
    (h : checkMember t m = .ok p) :
    isUnder t p = true ∧ p = resolveMember t m.filename := by
  unfold checkMember at h
  by_cases h1 : m.filename = "" <;> simp only [h1, if_true, if_false,
    reduceCtorEq] at h
  by_cases h2 : stripSeps m.filename = "" <;> simp only [h2, if_true, if_false,
    reduceCtorEq] at h
  by_cases h3 : isUnder t (resolveMember t m.filename) = false <;>
    simp only [h3, if_true, if_false, reduceCtorEq] at h
  by_cases h4 : isSymlinkAttr m.external_attr = true <;> simp only [h4, if_true,
    if_false, reduceCtorEq, Except.ok.injEq] at h
  refine ⟨?_, h.symm⟩
  rw [← h]
  simpa using h3

theorem safeExtractGo_written (t : List String) (ms : List ZipMember) :
    ∀ p ∈ (safeExtractGo t ms).1, isUnder t p = true := by
  induction ms with
  | nil => simp [safeExtractGo]
  | cons m ms ih =>
    intro p hp
    cases hcm : checkMember t m with
    | error e => simp [safeExtractGo, hcm] at hp
    | ok q =>
      simp only [safeExtractGo, hcm, List.mem_cons] at hp
      rcases hp with hp | hp
      · subst hp; exact (checkMember_ok t m _ hcm).1
      · exact ih p hp

theorem safeExtractGo_rejects (t : List String) (ms : List ZipMember)
    (m : ZipMember) (hm : m ∈ ms)
    (hesc : isUnder t (resolveMember t m.filename) = false) :
    (safeExtractGo t ms).2.isSome := by
  induction ms with
  | nil => cases hm
  | cons x xs ih =>
    rcases List.mem_cons.mp hm with h | h
    · subst h
      cases hcm : checkMember t m with
      | error e => simp [safeExtractGo, hcm]
      | ok q =>
        have hq := checkMember_ok t m q hcm
        rw [hq.2, hesc] at hq
        cases hq.1
    · cases hcm : checkMember t x with
      | error e => simp [safeExtractGo, hcm]
      | ok q =>
        simp only [safeExtractGo, hcm]
        exact ih h

theorem resolveMember_dotdot (R : List String) (hR : normAbs R = R) :
    resolveMember R "../evil.txt" = R.dropLast ++ ["evil.txt"] := by
  have hsw : startsWithSlash "../evil.txt" = false := by decide
  have hsplit : splitSlash "../evil.txt" = ["..", "evil.txt"] := by decide
  rw [resolveMember, hsw]
  simp only [Bool.false_eq_true, if_false, hsplit]
  have : normAbs (R ++ ["..", "evil.txt"]) =
      (["..", "evil.txt"]).foldl normStep (normAbs R) := by
    simp [normAbs, List.foldl_append]
  rw [this, hR]
  simp [normStep]

theorem evil_escapes (R : List String) (hR : normAbs R = R) (hne : R ≠ [])
    (hlast : R.getLast? ≠ some "evil.txt") :
    isUnder R (resolveMember R "../evil.txt") = false := by
  rw [resolveMember_dotdot R hR]
  by_contra hc
  rw [Bool.not_eq_false, isUnder_iff] at hc
  have hpos : 0 < R.length := List.length_pos.mpr hne
  have hlen : (R.dropLast ++ ["evil.txt"]).length = R.length := by
    simp only [List.length_append, List.length_dropLast, List.length_cons,
      List.length_nil]
    omega
  rw [← hlen, List.take_length] at hc
  have : R.getLast? = some "evil.txt" := by
    rw [← hc]; exact List.getLast?_concat _
  exact hlast this

/-- **C1** (amended).  Every destination path written by `safe_extract` is the
extraction root or a descendant of it; any member whose resolved path is not
under the root causes the run to abort with a `PathTraversalError`; and an
archive containing the entry `"../evil.txt"` is always rejected, provided the
extraction root is not the filesystem root and its final component is not
itself named `"evil.txt"` (in those two cases the entry resolves back to the
root or into it, and the code's `commonpath` containment check passes). -/
theorem safe_extract_path_safety (root : List String) (ms : List ZipMember) :
    (∀ p ∈ (safe_extract root ms).1, isUnder (normAbs root) p = true) ∧
    (∀ m ∈ ms,
      isUnder (normAbs root) (resolveMember (normAbs root) m.filename) = false →
      (safe_extract root ms).2.isSome) ∧
    (normAbs root ≠ [] → (normAbs root).getLast? ≠ some "evil.txt" →
      (∃ m ∈ ms, m.filename = "../evil.txt") →
      (safe_extract root ms).2.isSome) := by
  refine ⟨safeExtractGo_written _ ms, fun m hm hesc => ?_, fun hne hlast hex => ?_⟩
  · exact safeExtractGo_rejects _ ms m hm hesc
  · rcases hex with ⟨m, hm, hname⟩
    refine safeExtractGo_rejects _ ms m hm ?_
    rw [hname]
    exact evil_escapes _ (normAbs_idem root) hne hlast

/-- **C1** witness: a zip containing `"../evil.txt"`, extracted to `/r`, is
rejected. -/
theorem safe_extract_path_safety_witness :
    (safe_extract ["r"] [⟨"../evil.txt", 0⟩]).2.isSome :=
  (safe_extract_path_safety ["r"] [⟨"../evil.txt", 0⟩]).2.2 (by decide) (by decide)
    ⟨⟨"../evil.txt", 0⟩, by simp, rfl⟩

/-- **C1** counterexample to the claim as stated: the member `"."` resolves to
the extraction root itself — not a *strict* descendant of it — yet
`safe_extract` does not raise `PathTraversal`; it extracts the member. -/
theorem safe_extract_strict_counterexample :
    (safe_extract ["r"] [⟨".", 0⟩]).2 = none ∧
    strictDescendant (normAbs ["r"]) (resolveMember (normAbs ["r"]) ".") = false := by
  decide

/-! ## Python string helpers -/

/-- ASCII whitespace recognized by `str.strip()` (the inputs the updater
handles are ASCII). -/
def isSpaceChar (c : Char) : Bool :=
  c = ' ' ∨ c = '\t' ∨ c = '\n' ∨ c = '\r' ∨ c = '\x0b' ∨ c = '\x0c'

/-- `str.strip()`. -/
def pyStrip (s : String) : String :=
  String.mk (((s.toList.dropWhile isSpaceChar).reverse.dropWhile
    isSpaceChar).reverse)

/-- `str.lower()` on the ASCII strings the updater handles. -/
def pyLower (s : String) : String := String.mk (s.toList.map Char.toLower)

/-- `str.endswith suf`. -/
def endsWithStr (s suf : String) : Bool :=
  s.toList.drop (s.toList.length - suf.toList.length) == suf.toList

/-- `sub in hay` on character lists. -/
def listContainsSub (sub : List Char) : List Char → Bool
  | [] => sub == []
  | c :: rest => List.take sub.length (c :: rest) == sub || listContainsSub sub rest

/-- Python's substring containment `sub in hay`. -/
def containsSub (hay sub : String) : Bool := listContainsSub sub.toList hay.toList

/-- `str.split()` — split on whitespace runs, dropping empty fields. -/
def pySplitWsGo (cur : List Char) : List Char → List (List Char)
  | [] => if cur == [] then [] else [cur.reverse]
  | c :: cs =>
    if isSpaceChar c then
      if cur == [] then pySplitWsGo [] cs else cur.reverse :: pySplitWsGo [] cs
    else pySplitWsGo (c :: cur) cs

/-- `str.split()` with no argument. -/
def pySplitWs (s : String) : List String := (pySplitWsGo [] s.toList).map String.mk

/-- `str.split "\n"`. -/
def splitLines (s : String) : List String :=
  (splitCharsOn '\n' s.toList).map String.mk

/-! ## URL validation (`_is_valid_url`, updater.py lines 166-192)

`urllib.parse.urlparse` restricted to what the function reads: `scheme`
(lowercased when the prefix before `':'` is a syntactically valid scheme),
`netloc` (between `"//"` and the next `/`, `?` or `#`, kept verbatim) and
`path` (up to `?` or `#`). -/

structure ParsedUrl where
  scheme : String
  netloc : String
  path : String
deriving DecidableEq, Repr

/-- Characters allowed in a URL scheme after the initial letter. -/
def isSchemeChar (c : Char) : Bool :=
  c.isAlpha ∨ c.isDigit ∨ c = '+' ∨ c = '-' ∨ c = '.'

def urlparse (url : String) : ParsedUrl :=
  let cs := url.toList
  let pre := cs.takeWhile (fun c => ¬ c = ':')
  let hasScheme := pre.length < cs.length ∧ pre ≠ [] ∧
    (pre.headD ' ').isAlpha ∧ pre.all isSchemeChar
  let scheme := if hasScheme then String.mk (pre.map Char.toLower) else ""
  let rest := if hasScheme then cs.drop (pre.length + 1) else cs
  match rest with
  | '/' :: '/' :: after =>
    let netloc := after.takeWhile (fun c => ¬ (c = '/' ∨ c = '?' ∨ c = '#'))
    let tail := after.drop netloc.length
    ⟨scheme, String.mk netloc,
      String.mk (tail.takeWhile (fun c => ¬ (c = '?' ∨ c = '#')))⟩
  | _ => ⟨scheme, "", String.mk (rest.takeWhile (fun c => ¬ (c = '?' ∨ c = '#')))⟩

/-- `_is_valid_url`: HTTPS, a netloc whose name ends in `github.com` or
`githubusercontent.com` (a plain suffix test in the source), and a non-trivial
path. -/
def _is_valid_url (url : String) : Bool :=
  if url = "" then false
  else
    let parsed := urlparse url
    if ¬ parsed.scheme = "https" then false
    else if ¬ endsWithStr parsed.netloc "github.com" ∧
        ¬ endsWithStr parsed.netloc "githubusercontent.com" then false
    else if parsed.path = "" ∨ parsed.path = "/" then false
    else true

/-! ## Checksum format validation (`_is_valid_checksum`, lines 195-218)

The source checks `len(checksum) == 64` and then `int(checksum, 16)`.
Python's `int(_, 16)` accepts more than bare hex digits: an optional sign, an
optional `0x`/`0X` prefix, and single underscores between digits (or directly
after the prefix). -/

def isHexDigitChar (c : Char) : Bool :=
  c.isDigit ∨ ('a' ≤ c ∧ c ≤ 'f') ∨ ('A' ≤ c ∧ c ≤ 'F')

/-- Hex digit sequence continuation: digits with single interior underscores. -/
def hexTail : List Char → Bool
  | [] => true
  | '_' :: c :: cs => isHexDigitChar c && hexTail cs
  | '_' :: [] => false
  | c :: cs => isHexDigitChar c && hexTail cs

/-- Non-empty digit part of a hex literal. -/
def hexDigitPart : List Char → Bool
  | [] => false
  | c :: cs => isHexDigitChar c && hexTail cs

/-- Whether `int(s, 16)` succeeds on an already-whitespace-stripped string. -/
def pyIntHexAccepts (s : String) : Bool :=
  let cs := s.toList
  let cs1 := match cs with
    | '+' :: r => r
    | '-' :: r => r
    | r => r
  match cs1 with
  | '0' :: x :: r =>
    if x = 'x' ∨ x = 'X' then
      match r with
      | '_' :: r2 => hexDigitPart r2
      | _ => hexDigitPart r
    else hexDigitPart cs1
  | _ => hexDigitPart cs1

/-- `_is_valid_checksum`: falsy input rejected, then
`checksum.strip().lower()`, a length-64 test, and `int(_, 16)`. -/
def _is_valid_checksum (checksum : String) : Bool :=
  if checksum = "" then false
  else
    let c := pyLower (pyStrip checksum)
    if ¬ c.toList.length = 64 then false
    else pyIntHexAccepts c

/-- **C4**: the code contradicts its own documentation ("SHA256 is exactly 64
hex characters", "Must be valid hex"): the string `"-" ++ 63 × 'a'` has 64
characters but is not 64 hexadecimal characters, yet `_is_valid_checksum`
accepts it (Python's `int(_, 16)` tolerates a sign), so it is used for
verification instead of being skipped. -/
theorem is_valid_checksum_accepts_nonhex :
    _is_valid_checksum ("-" ++ String.mk (List.replicate 63 'a')) = true ∧
    ¬ (∀ c ∈ ("-" ++ String.mk (List.replicate 63 'a')).toList,
        isHexDigitChar c = true) := by
  decide

/-! ## Disk space preflight (`_check_disk_space`, lines 221-249) -/

def MIN_FREE_SPACE : Nat := 100 * 1024 * 1024

def MAX_DOWNLOAD_SIZE : Nat := 500 * 1024 * 1024

/-- `_check_disk_space`: the platform query either yields the number of free
bytes or raises; a raise is swallowed and reported as success with `0`. -/
def _check_disk_space (query : Except Unit Nat) (required_bytes : Nat) :
    Bool × Nat :=
  match query with
  | .ok free => (decide (required_bytes ≤ free), free)
  | .error _ => (true, 0)

/-! ## Streaming download (`_download_with_progress`, lines 377-419)

The environment supplies the request outcome: either a `RequestException`
(after `_request_with_retry` exhausts its attempts) or a response carrying the
parsed `Content-Length` header (`0` when absent, per `headers.get(_, 0)`) and
the sizes of the streamed chunks.

The source's overrun guard is `downloaded > total_size * 1.1` in IEEE-754
double arithmetic.  For every `total_size` that passes the 500 MiB cap and
every integer byte count, that comparison coincides with the exact rational
comparison `10 * downloaded > 11 * total_size` (the float product differs from
the rational one by less than `1.2e-7`, while `1.1 * total_size` is either an
exact integer or at distance at least `0.1` from one), which is how it is
embedded here. -/

inductive DlError
  | requestError                         -- requests.RequestException
  | oversized (total : Nat)              -- ValueError: exceeds maximum size
  | overrun (got : Nat) (total : Nat)    -- IOError: exceeded expected size
  | incomplete (got : Nat) (total : Nat) -- IOError: incomplete download
deriving DecidableEq, Repr

/-- Which download failures Python raises as `IOError` (`OSError`)?  Those are
the ones `perform_update`'s `except IOError` handler catches. -/
def DlError.isIOError : DlError → Bool
  | .overrun _ _ => true
  | .incomplete _ _ => true
  | _ => false

structure DlResponse where
  contentLength : Nat
  chunks : List Nat
deriving DecidableEq, Repr

deriving instance DecidableEq for Except

structure DlOutcome where
  result : Except DlError Unit
  fileCreated : Bool
  bytesWritten : Nat
deriving DecidableEq, Repr

/-- The chunk loop: empty chunks are skipped (`if chunk:`), each written chunk
advances the count, and crossing 110% of a known declared length aborts on the
spot. -/
def dlLoop (total : Nat) (written : Nat) : List Nat → Option DlError × Nat
  | [] => (none, written)
  | ch :: rest =>
    if ch = 0 then dlLoop total written rest
    else if 0 < total ∧ 11 * total < 10 * (written + ch) then
      (some (.overrun (written + ch) total), written + ch)
    else dlLoop total (written + ch) rest

def _download_with_progress (resp : Except Unit DlResponse) : DlOutcome :=
  match resp with
  | .error _ => ⟨.error .requestError, false, 0⟩
  | .ok r =>
    let total := r.contentLength
    if MAX_DOWNLOAD_SIZE < total then ⟨.error (.oversized total), false, 0⟩
    else
      match dlLoop total 0 r.chunks with
      | (some e, w) => ⟨.error e, true, w⟩
      | (none, w) =>
        if 0 < total ∧ ¬ w = total then ⟨.error (.incomplete w total), true, w⟩
        else ⟨.ok (), true, w⟩

/-- **C7**: a declared content length above the 500 MiB cap is rejected before
the destination file is opened: the download raises, no file is created, zero
bytes are written. -/
theorem oversized_download_rejected (resp : DlResponse)
    (h : MAX_DOWNLOAD_SIZE < resp.contentLength) :
    _download_with_progress (.ok resp) =
      ⟨.error (.oversized resp.contentLength), false, 0⟩ := by
  simp [_download_with_progress, h]

/-- **C7** witness: a 500 MiB + 1 byte declaration is rejected with nothing
written. -/
theorem oversized_download_rejected_witness :
    _download_with_progress (.ok ⟨MAX_DOWNLOAD_SIZE + 1, [8192]⟩) =
      ⟨.error (.oversized (MAX_DOWNLOAD_SIZE + 1)), false, 0⟩ :=
  oversized_download_rejected ⟨MAX_DOWNLOAD_SIZE + 1, [8192]⟩ (by decide)

/-! ### Chunk-loop lemmas for C8 -/

theorem dlLoop_complete (total : Nat) (w : Nat) (chunks : List Nat)
    (h : 10 * (w + chunks.sum) ≤ 11 * total ∨ total = 0) :
    dlLoop total w chunks = (none, w + chunks.sum) := by
  induction chunks generalizing w with
  | nil => simp [dlLoop]
  | cons ch rest ih =>
    by_cases hch : ch = 0
    · subst hch
      rw [dlLoop, if_pos rfl, ih w (by simpa using h)]
      simp
    · have hno : ¬ (0 < total ∧ 11 * total < 10 * (w + ch)) := by
        rcases h with h | h
        · rintro ⟨-, hlt⟩
          rw [List.sum_cons] at h
          omega
        · rintro ⟨hp, -⟩; omega
      have h' : 10 * (w + ch + rest.sum) ≤ 11 * total ∨ total = 0 := by
        rcases h with h | h
        · left; rw [List.sum_cons] at h; omega
        · right; exact h
      rw [dlLoop, if_neg hch, if_neg hno, ih (w + ch) h']
      simp [List.sum_cons, Nat.add_assoc]

theorem dlLoop_overrun (total : Nat) (w : Nat) (chunks : List Nat)
    (hpos : 0 < total) (hover : 11 * total < 10 * (w + chunks.sum))
    (hstart : 10 * w ≤ 11 * total) :
    ∃ pre ch post, chunks = pre ++ ch :: post ∧ ch ≠ 0 ∧
      dlLoop total w chunks =
        (some (.overrun (w + pre.sum + ch) total), w + pre.sum + ch) ∧
      10 * (w + pre.sum) ≤ 11 * total ∧
      11 * total < 10 * (w + pre.sum + ch) := by
  induction chunks generalizing w with
  | nil =>
    rw [List.sum_nil] at hover
    omega
  | cons ch rest ih =>
    by_cases hch : ch = 0
    · subst hch
      obtain ⟨pre, c, post, heq, hc, hrun, hle, hgt⟩ :=
        ih w (by rw [List.sum_cons] at hover; simpa using hover) hstart
      refine ⟨0 :: pre, c, post, by simp [heq], hc, ?_, by simpa using hle,
        by simpa using hgt⟩
      rw [dlLoop, if_pos rfl, hrun]
      simp
    · by_cases hcross : 11 * total < 10 * (w + ch)
      · refine ⟨[], ch, rest, rfl, hch, ?_, by simpa using hstart,
          by simpa using hcross⟩
        rw [dlLoop, if_neg hch, if_pos ⟨hpos, hcross⟩]
        simp
      · push_neg at hcross
        have hover' : 11 * total < 10 * (w + ch + rest.sum) := by
          rw [List.sum_cons] at hover; omega
        obtain ⟨pre, c, post, heq, hc, hrun, hle, hgt⟩ :=
          ih (w + ch) hover' hcross
        have hno : ¬ (0 < total ∧ 11 * total < 10 * (w + ch)) := by omega
        refine ⟨ch :: pre, c, post, by simp [heq], hc, ?_, ?_, ?_⟩
        · rw [dlLoop, if_neg hch, if_neg hno, hrun]
          have harith : w + ch + pre.sum = w + (ch :: pre).sum := by
            rw [List.sum_cons]; omega
          rw [harith]
        · rw [List.sum_cons]; omega
        · rw [List.sum_cons]; omega

/-! ## Version parsing and ordering (`packaging.version`, used at lines
492-515)

The release tag and the current version are compared with
`packaging.version.parse`, i.e. the PEP 440 grammar
`v? (N!)? N(.N)* [pre][post][dev]` (case-insensitive, surrounding whitespace
ignored) and the `_cmpkey` ordering: epoch, then the release tuple with
trailing zeros removed, then the pre/post/dev keys with their infinity
sentinels.  The rarely-used local segment (`+…`) is not modelled; a string
with one simply fails to parse here. -/

/-- Normalized pre-release letter; packaging maps `alpha → a`, `beta → b`,
`c`/`pre`/`preview` → `rc` and orders the normalized spellings. -/
inductive PreTag
  | a
  | b
  | rc
deriving DecidableEq, Repr

def PreTag.rank : PreTag → Nat
  | .a => 0
  | .b => 1
  | .rc => 2

structure PyVersion where
  epoch : Nat
  release : List Nat
  pre : Option (PreTag × Nat)
  post : Option Nat
  dev : Option Nat
deriving DecidableEq, Repr

/-! ### Parser -/

def takeDigits (cs : List Char) : List Char × List Char :=
  (cs.takeWhile Char.isDigit, cs.dropWhile Char.isDigit)

def natOfDigits (ds : List Char) : Nat :=
  ds.foldl (fun acc c => 10 * acc + (c.toNat - '0'.toNat)) 0

/-- `N(.N)*` continuation: consume `'.' digits` groups while possible. -/
def relLoop : Nat → List Nat → List Char → List Nat × List Char
  | 0, acc, cs => (acc, cs)
  | _ + 1, acc, [] => (acc, [])
  | fuel + 1, acc, c :: rest =>
    if c = '.' then
      match takeDigits rest with
      | ([], _) => (acc, c :: rest)
      | (ds, r) => relLoop fuel (acc ++ [natOfDigits ds]) r
    else (acc, c :: rest)

/-- Separators `[-_.]` accepted between version segments. -/
def isSepChar (c : Char) : Bool := c = '-' ∨ c = '_' ∨ c = '.'

/-- Consume one optional separator (`[-_\.]?`, greedy). -/
def dropSepOpt (cs : List Char) : List Char :=
  match cs with
  | c :: r => if isSepChar c then r else cs
  | [] => []

def matchWord (w : String) (cs : List Char) : Option (List Char) :=
  if cs.take w.toList.length == w.toList then some (cs.drop w.toList.length)
  else none

/-- Pre-release spellings, longest first so that the match agrees with the
regex alternation under backtracking. -/
def preLetters : List (String × PreTag) :=
  [("preview", .rc), ("alpha", .a), ("beta", .b), ("pre", .rc), ("rc", .rc),
   ("a", .a), ("b", .b), ("c", .rc)]

def tryPreWords (ws : List (String × PreTag)) (cs : List Char) :
    Option (PreTag × List Char) :=
  match ws with
  | [] => none
  | (w, t) :: rest =>
    match matchWord w cs with
    | some r => some (t, r)
    | none => tryPreWords rest cs

/-- `([-_\.]?(a|b|c|rc|alpha|beta|pre|preview)[-_\.]?([0-9]+)?)?` -/
def parsePre (cs : List Char) : Option (PreTag × Nat) × List Char :=
  match tryPreWords preLetters (dropSepOpt cs) with
  | some (t, r) =>
    match takeDigits (dropSepOpt r) with
    | (ds, r2) => (some (t, natOfDigits ds), r2)
  | none => (none, cs)

def postLetters : List String := ["post", "rev", "r"]

def tryPostWords (ws : List String) (cs : List Char) : Option (List Char) :=
  match ws with
  | [] => none
  | w :: rest =>
    match matchWord w cs with
    | some r => some r
    | none => tryPostWords rest cs

/-- The word form of the post segment: `[-_\.]?(post|rev|r)[-_\.]?([0-9]+)?`. -/
def parsePostWord (cs : List Char) : Option Nat × List Char :=
  match tryPostWords postLetters (dropSepOpt cs) with
  | some r =>
    match takeDigits (dropSepOpt r) with
    | (ds, r2) => (some (natOfDigits ds), r2)
  | none => (none, cs)

/-- `(-(N)) | ([-_\.]?(post|rev|r)[-_\.]?(N)?)`, first alternative first. -/
def parsePost (cs : List Char) : Option Nat × List Char :=
  match cs with
  | '-' :: rest =>
    match takeDigits rest with
    | ([], _) => parsePostWord cs
    | (ds, r) => (some (natOfDigits ds), r)
  | _ => parsePostWord cs

/-- `([-_\.]?dev[-_\.]?([0-9]+)?)?` -/
def parseDev (cs : List Char) : Option Nat × List Char :=
  match matchWord "dev" (dropSepOpt cs) with
  | some r =>
    match takeDigits (dropSepOpt r) with
    | (ds, r2) => (some (natOfDigits ds), r2)
  | none => (none, cs)

/-- `([0-9]+!)?` -/
def parseEpoch (cs : List Char) : Nat × List Char :=
  match takeDigits cs with
  | (ds, '!' :: r) => if ds = [] then (0, cs) else (natOfDigits ds, r)
  | _ => (0, cs)

/-- `packaging.version.parse`, without the local segment.  Raising
`InvalidVersion` is `none`. -/
def parseVersion (s : String) : Option PyVersion :=
  let cs0 := (pyStrip s).toList.map Char.toLower
  let cs1 := match cs0 with
    | 'v' :: r => r
    | r => r
  let ec := parseEpoch cs1
  match takeDigits ec.2 with
  | ([], _) => none
  | (d1, r1) =>
    let rel := relLoop r1.length [natOfDigits d1] r1
    let pre := parsePre rel.2
    let post := parsePost pre.2
    let dev := parseDev post.2
    if dev.2 = [] then some ⟨ec.1, rel.1, pre.1, post.1, dev.1⟩ else none

/-! ### Ordering (`packaging.version._cmpkey`) -/

def cmpNat (m n : Nat) : Ordering :=
  if m < n then .lt else if n < m then .gt else .eq

def cmpListNat : List Nat → List Nat → Ordering
  | [], [] => .eq
  | [], _ :: _ => .lt
  | _ :: _, [] => .gt
  | x :: xs, y :: ys => (cmpNat x y).then (cmpListNat xs ys)

/-- The release tuple is compared with trailing zeros removed. -/
def trimZeros (l : List Nat) : List Nat :=
  (l.reverse.dropWhile (fun n => n == 0)).reverse

/-- The pre-release comparison key with its two infinity sentinels. -/
inductive PreKey
  | negInf
  | val (t : PreTag) (n : Nat)
  | inf
deriving DecidableEq, Repr

def preKey (v : PyVersion) : PreKey :=
  match v.pre, v.post, v.dev with
  | none, none, some _ => .negInf
  | none, _, _ => .inf
  | some (t, n), _, _ => .val t n

def cmpPreKey : PreKey → PreKey → Ordering
  | .negInf, .negInf => .eq
  | .negInf, _ => .lt
  | _, .negInf => .gt
  | .inf, .inf => .eq
  | .inf, _ => .gt
  | _, .inf => .lt
  | .val t n, .val u m => (cmpNat t.rank u.rank).then (cmpNat n m)

/-- Post key: absent compares below any present value. -/
def cmpOptLow : Option Nat → Option Nat → Ordering
  | none, none => .eq
  | none, some _ => .lt
  | some _, none => .gt
  | some m, some n => cmpNat m n

/-- Dev key: absent compares above any present value. -/
def cmpOptHigh : Option Nat → Option Nat → Ordering
  | none, none => .eq
  | none, some _ => .gt
  | some _, none => .lt
  | some m, some n => cmpNat m n

def compareVersion (x y : PyVersion) : Ordering :=
  (cmpNat x.epoch y.epoch).then
    ((cmpListNat (trimZeros x.release) (trimZeros y.release)).then
      ((cmpPreKey (preKey x) (preKey y)).then
        ((cmpOptLow x.post y.post).then (cmpOptHigh x.dev y.dev))))

/-! ### Ordering lemmas -/

theorem orderingThen_swap (a b : Ordering) :
    (a.then b).swap = a.swap.then b.swap := by
  cases a <;> rfl

theorem cmpNat_swap (m n : Nat) : cmpNat m n = (cmpNat n m).swap := by
  unfold cmpNat
  rcases Nat.lt_trichotomy m n with h | h | h
  · rw [if_pos h, if_neg (Nat.lt_asymm h), if_pos h]; rfl
  · subst h
    rw [if_neg (Nat.lt_irrefl m), if_neg (Nat.lt_irrefl m)]
    rfl
  · rw [if_neg (Nat.lt_asymm h), if_pos h, if_pos h]; rfl

theorem cmpNat_self (m : Nat) : cmpNat m m = .eq := by
  simp [cmpNat]

theorem cmpListNat_swap (xs ys : List Nat) :
    cmpListNat xs ys = (cmpListNat ys xs).swap := by
  induction xs generalizing ys with
  | nil => cases ys <;> rfl
  | cons x xs ih =>
    cases ys with
    | nil => rfl
    | cons y ys =>
      rw [cmpListNat, cmpListNat, orderingThen_swap, ← cmpNat_swap, ← ih]

theorem cmpListNat_self (xs : List Nat) : cmpListNat xs xs = .eq := by
  induction xs with
  | nil => rfl
  | cons x xs ih => rw [cmpListNat, cmpNat_self, Ordering.then, ih]

theorem cmpPreKey_swap (a b : PreKey) : cmpPreKey a b = (cmpPreKey b a).swap := by
  cases a <;> cases b <;>
    simp only [cmpPreKey, orderingThen_swap, ← cmpNat_swap] <;> rfl

theorem cmpPreKey_self (a : PreKey) : cmpPreKey a a = .eq := by
  cases a with
  | negInf => rfl
  | inf => rfl
  | val t n => rw [cmpPreKey, cmpNat_self, Ordering.then, cmpNat_self]

theorem cmpOptLow_swap (a b : Option Nat) : cmpOptLow a b = (cmpOptLow b a).swap := by
  cases a <;> cases b <;> simp only [cmpOptLow, ← cmpNat_swap] <;> rfl

theorem cmpOptLow_self (a : Option Nat) : cmpOptLow a a = .eq := by
  cases a with
  | none => rfl
  | some m => exact cmpNat_self m

theorem cmpOptHigh_swap (a b : Option Nat) : cmpOptHigh a b = (cmpOptHigh b a).swap := by
  cases a <;> cases b <;> simp only [cmpOptHigh, ← cmpNat_swap] <;> rfl

theorem cmpOptHigh_self (a : Option Nat) : cmpOptHigh a a = .eq := by
  cases a with
  | none => rfl
  | some m => exact cmpNat_self m

theorem compareVersion_swap (x y : PyVersion) :
    compareVersion x y = (compareVersion y x).swap := by
  rw [compareVersion, compareVersion, orderingThen_swap, orderingThen_swap,
    orderingThen_swap, orderingThen_swap, ← cmpNat_swap, ← cmpListNat_swap,
    ← cmpPreKey_swap, ← cmpOptLow_swap, ← cmpOptHigh_swap]

theorem compareVersion_self (x : PyVersion) : compareVersion x x = .eq := by
  rw [compareVersion, cmpNat_self, Ordering.then, cmpListNat_self,
    Ordering.then, cmpPreKey_self, Ordering.then, cmpOptLow_self,
    Ordering.then, cmpOptHigh_self]

/-! ### check_for_updates version comparison (lines 492-515) -/

/-- `str.lstrip "v"`: remove every leading `'v'`. -/
def lstripV (s : String) : String :=
  String.mk (s.toList.dropWhile (fun c => c = 'v'))

/-- The version-comparison tail of `check_for_updates`, given the current
version string and the release's `tag_name`: `true` when the release data
would be returned (an update is reported).  Any parse failure is swallowed and
reported as "no update". -/
def checkVersions (current latest_tag : String) : Bool :=
  if latest_tag = "" then false
  else
    match parseVersion (lstripV latest_tag), parseVersion (lstripV current) with
    | some vl, some vc => compareVersion vl vc == .gt
    | _, _ => false

/-- **C5**: for version strings whose stripped forms parse, `a < b` under the
embedded packaging order means: current `a` against remote `b` reports an
update, current `b` against remote `a` reports none, `b` against `b` reports
none; and an unparseable remote tag yields "no update" rather than an
error. -/
theorem version_ordering_correct :
    (∀ a b va vb, parseVersion (lstripV a) = some va →
      parseVersion (lstripV b) = some vb → compareVersion va vb = .lt →
      checkVersions a b = true ∧ checkVersions b a = false ∧
      checkVersions b b = false) ∧
    (∀ a b, parseVersion (lstripV b) = none → checkVersions a b = false) := by
  constructor
  · intro a b va vb ha hb hlt
    have hbne : ¬ b = "" := by
      intro h
      rw [h] at hb
      have : parseVersion (lstripV "") = none := by decide
      rw [this] at hb
      cases hb
    have hane : ¬ a = "" := by
      intro h
      rw [h] at ha
      have : parseVersion (lstripV "") = none := by decide
      rw [this] at ha
      cases ha
    have hgt : compareVersion vb va = .gt := by
      rw [compareVersion_swap, hlt]; rfl
    refine ⟨?_, ?_, ?_⟩
    · rw [checkVersions, if_neg hbne, ha, hb]
      show (compareVersion vb va == .gt) = true
      rw [hgt]
      rfl
    · rw [checkVersions, if_neg hane, ha, hb]
      show (compareVersion va vb == .gt) = false
      rw [hlt]
      rfl
    · rw [checkVersions, if_neg hbne, hb]
      show (compareVersion vb vb == .gt) = false
      rw [compareVersion_self]
      rfl
  · intro a b hb
    by_cases hbe : b = ""
    · rw [checkVersions, if_pos hbe]
    · rw [checkVersions, if_neg hbe, hb]

/-- **C5** witness at `a = "v1.5.0"`, `b = "v1.6.0"` and the unparseable
remote `"not-a-version"`. -/
theorem version_ordering_correct_witness :
    (checkVersions "v1.5.0" "v1.6.0" = true ∧
      checkVersions "v1.6.0" "v1.5.0" = false ∧
      checkVersions "v1.6.0" "v1.6.0" = false) ∧
    checkVersions "v1.5.0" "not-a-version" = false :=
  ⟨version_ordering_correct.1 "v1.5.0" "v1.6.0"
      ⟨0, [1, 5, 0], none, none, none⟩ ⟨0, [1, 6, 0], none, none, none⟩
      (by decide) (by decide) (by decide),
    version_ordering_correct.2 "v1.5.0" "not-a-version" (by decide)⟩

/-! ## Retrying HTTP client (`_request_with_retry`, lines 303-342) and
`check_for_updates` (lines 467-515)

`requests.get` + `raise_for_status` per attempt.  An HTTP error status (such
as 403) becomes an `HTTPError`, which *is* a `RequestException`, so the retry
loop retries it like any network failure; only after the attempts are
exhausted does the last exception propagate to `check_for_updates`. -/

structure HttpErrorInfo where
  status : Nat
  rateLimitRemaining : Option String
deriving DecidableEq, Repr

/-- What one `requests.get` attempt produces, for a payload type `α`. -/
inductive Attempt (α : Type)
  | ok (val : α)
  | httpError (e : HttpErrorInfo)
  | netError
deriving DecidableEq, Repr

inductive ReqFailure
  | httpError (e : HttpErrorInfo)
  | netError
  | noAttempts
deriving DecidableEq, Repr

/-- The retry loop, counting the `requests.get` calls it makes.  `oracle i` is
the result of attempt `i`. -/
def reqGo {α : Type} (oracle : Nat → Attempt α) (i : Nat) :
    Nat → ReqFailure → Except ReqFailure α × Nat
  | 0, last => (.error last, i)
  | fuel + 1, _ =>
    match oracle i with
    | .ok v => (.ok v, i + 1)
    | .httpError e => reqGo oracle (i + 1) fuel (.httpError e)
    | .netError => reqGo oracle (i + 1) fuel .netError

/-- `_request_with_retry url max_retries`: the result after at most
`max_retries` attempts, paired with the number of attempts actually made. -/
def _request_with_retry {α : Type} (oracle : Nat → Attempt α)
    (max_retries : Nat) : Except ReqFailure α × Nat :=
  reqGo oracle 0 max_retries .noAttempts

def CURRENT_VERSION : String := "v1.5.0"

structure ReleaseAsset where
  name : String
  browser_download_url : String
deriving DecidableEq, Repr

/-- The slice of the GitHub release JSON the updater reads. -/
structure ReleaseData where
  tag_name : Option String
  assets : List ReleaseAsset
deriving DecidableEq, Repr

/-- `check_for_updates`: fetch the latest-release metadata with 3 attempts;
every failure path — including a 403 whose `X-RateLimit-Remaining` is `"0"`,
recognized after the retries — returns "no update" (`none`) instead of
raising; otherwise compare versions. -/
def check_for_updates (oracle : Nat → Attempt ReleaseData)
    (current : String) : Option ReleaseData :=
  match (_request_with_retry oracle 3).1 with
  | .error _ => none
  | .ok data =>
    let latest_tag := data.tag_name.getD ""
    if checkVersions current latest_tag then some data else none

/-- The oracle whose every attempt is a 403 with `X-RateLimit-Remaining: 0`. -/
def rlZeroOracle : Nat → Attempt ReleaseData :=
  fun _ => .httpError ⟨403, some "0"⟩

/-- **C6** counterexample to the claim as stated: with every attempt answered
by a 403 whose rate-limit-remaining header is `"0"`, the metadata request is
still retried — three `requests.get` calls are made, not one — because the
`HTTPError` raised by `raise_for_status` is a `RequestException` and
`_request_with_retry` retries those indiscriminately; the rate-limit check in
`check_for_updates` only runs after the retries are exhausted. -/
theorem rate_limit_retry_counterexample :
    (_request_with_retry rlZeroOracle 3).2 = 3 ∧
    ¬ (_request_with_retry rlZeroOracle 3).2 = 1 ∧
    check_for_updates rlZeroOracle CURRENT_VERSION = none := by
  decide

/-- **C6** (amended): a 403 rate-limited response is retried like any other
request failure — all 3 bounded attempts are consumed — and once they are
exhausted `check_for_updates` swallows the error and returns "no update"
without raising. -/
theorem rate_limit_fails_open (oracle : Nat → Attempt ReleaseData)
    (h : ∀ i, oracle i = Attempt.httpError ⟨403, some "0"⟩) :
    (_request_with_retry oracle 3).2 = 3 ∧
    (_request_with_retry oracle 3).1 =
      .error (.httpError ⟨403, some "0"⟩) ∧
    check_for_updates oracle CURRENT_VERSION = none := by
  have hrun : _request_with_retry oracle 3 =
      (.error (.httpError ⟨403, some "0"⟩), 3) := by
    simp [_request_with_retry, reqGo, h]
  refine ⟨by rw [hrun], by rw [hrun], ?_⟩
  rw [check_for_updates, hrun]

/-- **C6** witness: the constant 403 oracle. -/
theorem rate_limit_fails_open_witness :
    (_request_with_retry rlZeroOracle 3).2 = 3 ∧
    (_request_with_retry rlZeroOracle 3).1 =
      .error (.httpError ⟨403, some "0"⟩) ∧
    check_for_updates rlZeroOracle CURRENT_VERSION = none :=
  rate_limit_fails_open rlZeroOracle (fun _ => rfl)

/-! ## Asset resolution (`perform_update` lines 562-599) -/

def REPO_NAME : String := "monitor-profile-swapper"

/-- The checksum-sidecar test: reserved lowered names or a `.sha256` suffix
(the suffix test is on the original, uncased name, as in the source). -/
def isChecksumName (name : String) : Bool :=
  pyLower name = "sha256.txt" ∨ pyLower name = "checksums.txt" ∨
    pyLower name = "sha256sums.txt" ∨ endsWithStr name ".sha256"

/-- A `.zip` asset whose lowered name contains `"release"` or the repository
identifier: the branch that overwrites `asset_url` on every hit. -/
def isPreferredZip (a : ReleaseAsset) : Bool :=
  ¬ isChecksumName a.name ∧ endsWithStr a.name ".zip" ∧
    (containsSub (pyLower a.name) "release" ∨
      containsSub (pyLower a.name) (pyLower REPO_NAME))

/-- A `.zip` asset that is not preferred: the branch that fills the fallback
slot once. -/
def isPlainZip (a : ReleaseAsset) : Bool :=
  ¬ isChecksumName a.name ∧ endsWithStr a.name ".zip" ∧
    ¬ (containsSub (pyLower a.name) "release" ∨
      containsSub (pyLower a.name) (pyLower REPO_NAME))

/-- The running state of the asset scan. -/
structure AssetSel where
  asset_url : Option String
  asset_name : Option String
  fallback_url : Option String
  fallback_name : Option String
  checksum_url : Option String
deriving DecidableEq, Repr

/-- The `for asset in release_data.get("assets", [])` loop.  A checksum-named
asset records `checksum_url` and `continue`s; a preferred zip overwrites
`asset_url`/`asset_name` every time ("Don't break - keep looking"); any other
zip fills the fallback slot only when it is still empty. -/
def assetLoop (st : AssetSel) : List ReleaseAsset → AssetSel
  | [] => st
  | a :: rest =>
    if isChecksumName a.name then
      assetLoop { st with checksum_url := some a.browser_download_url } rest
    else if endsWithStr a.name ".zip" then
      if containsSub (pyLower a.name) "release" ∨
          containsSub (pyLower a.name) (pyLower REPO_NAME) then
        assetLoop { st with
          asset_url := some a.browser_download_url
          asset_name := some a.name } rest
      else if st.fallback_url = none then
        assetLoop { st with
          fallback_url := some a.browser_download_url
          fallback_name := some a.name } rest
      else assetLoop st rest
    else assetLoop st rest

def emptySel : AssetSel := ⟨none, none, none, none, none⟩

/-- The package URL `perform_update` settles on: the scan's `asset_url`, or
the fallback when that is empty. -/
def chosenUrl (assets : List ReleaseAsset) : Option String :=
  let sel := assetLoop emptySel assets
  match sel.asset_url with
  | some u => some u
  | none => sel.fallback_url

/-- The matching asset name (set exactly when a URL is chosen). -/
def chosenName (assets : List ReleaseAsset) : Option String :=
  let sel := assetLoop emptySel assets
  match sel.asset_url with
  | some _ => sel.asset_name
  | none => sel.fallback_name

/-- The URL of the *last* preferred zip of the list, if any. -/
def lastPreferredUrl : List ReleaseAsset → Option String
  | [] => none
  | a :: rest =>
    match lastPreferredUrl rest with
    | some u => some u
    | none => if isPreferredZip a then some a.browser_download_url else none

/-- The URL of the first non-preferred zip of the list, if any. -/
def firstPlainZipUrl : List ReleaseAsset → Option String
  | [] => none
  | a :: rest =>
    if isPlainZip a then some a.browser_download_url else firstPlainZipUrl rest

/-- Modelled from the spec: "first candidate whose name contains the
product/repo identifier or the literal word release" — the *first* preferred
zip of the list. -/
def firstPreferredUrl : List ReleaseAsset → Option String
  | [] => none
  | a :: rest =>
    if isPreferredZip a then some a.browser_download_url
    else firstPreferredUrl rest

/-! ### Asset-loop characterization -/

theorem assetLoop_asset_url (st : AssetSel) (assets : List ReleaseAsset) :
    (assetLoop st assets).asset_url =
      match lastPreferredUrl assets with
      | some u => some u
      | none => st.asset_url := by
  induction assets generalizing st with
  | nil => rfl
  | cons a rest ih =>
    rw [assetLoop, lastPreferredUrl]
    by_cases hck : isChecksumName a.name
    · rw [if_pos hck, ih]
      have : isPreferredZip a = false := by
        simp [isPreferredZip, hck]
      rw [this]
      cases lastPreferredUrl rest <;> rfl
    · rw [if_neg hck]
      by_cases hzip : endsWithStr a.name ".zip"
      · rw [if_pos hzip]
        by_cases hcont : containsSub (pyLower a.name) "release" ∨
            containsSub (pyLower a.name) (pyLower REPO_NAME)
        · rw [if_pos hcont, ih]
          have : isPreferredZip a = true := by
            simp [isPreferredZip, hck, hzip]
            exact hcont
          rw [this]
          cases lastPreferredUrl rest <;> rfl
        · rw [if_neg hcont]
          have hnp : isPreferredZip a = false := by
            simp [isPreferredZip, hck, hzip]
            simpa using hcont
          by_cases hfb : st.fallback_url = none
          · rw [if_pos hfb, ih, hnp]
            cases lastPreferredUrl rest <;> rfl
          · rw [if_neg hfb, ih, hnp]
            cases lastPreferredUrl rest <;> rfl
      · rw [if_neg hzip, ih]
        have : isPreferredZip a = false := by
          simp [isPreferredZip, hzip]
        rw [this]
        cases lastPreferredUrl rest <;> rfl

theorem assetLoop_fallback_url (st : AssetSel) (assets : List ReleaseAsset) :
    (assetLoop st assets).fallback_url =
      match st.fallback_url with
      | some u => some u
      | none => firstPlainZipUrl assets := by
  induction assets generalizing st with
  | nil =>
    cases hst : st.fallback_url <;> simp [assetLoop, hst, firstPlainZipUrl]
  | cons a rest ih =>
    rw [assetLoop, firstPlainZipUrl]
    by_cases hck : isChecksumName a.name
    · rw [if_pos hck, ih]
      have : isPlainZip a = false := by
        simp [isPlainZip, hck]
      rw [this, if_neg (by simp)]
    · rw [if_neg hck]
      by_cases hzip : endsWithStr a.name ".zip"
      · rw [if_pos hzip]
        by_cases hcont : containsSub (pyLower a.name) "release" ∨
            containsSub (pyLower a.name) (pyLower REPO_NAME)
        · rw [if_pos hcont, ih]
          have : isPlainZip a = false := by
            simp only [isPlainZip, hck, hzip]
            simp [hcont]
          rw [this, if_neg (by simp)]
        · have hpz : isPlainZip a = true := by
            simp only [isPlainZip, hck, hzip]
            simp
            rw [not_or] at hcont
            exact ⟨by simpa using hcont.1, by simpa using hcont.2⟩
          rw [if_neg hcont]
          by_cases hfb : st.fallback_url = none
          · rw [if_pos hfb, ih, hfb, hpz]
            rfl
          · rw [if_neg hfb, ih, hpz]
            cases hst : st.fallback_url with
            | none => exact absurd hst hfb
            | some u => rfl
      · rw [if_neg hzip, ih]
        have : isPlainZip a = false := by
          simp [isPlainZip, hzip]
        rw [this, if_neg (by simp)]

theorem lastPreferredUrl_none_of_no_zip (assets : List ReleaseAsset)
    (h : ∀ a ∈ assets, endsWithStr a.name ".zip" = false) :
    lastPreferredUrl assets = none := by
  induction assets with
  | nil => rfl
  | cons a rest ih =>
    rw [lastPreferredUrl, ih (fun b hb => h b (by simp [hb]))]
    have : isPreferredZip a = false := by
      simp [isPreferredZip, h a (by simp)]
    rw [this]
    simp

theorem firstPlainZipUrl_none_of_no_zip (assets : List ReleaseAsset)
    (h : ∀ a ∈ assets, endsWithStr a.name ".zip" = false) :
    firstPlainZipUrl assets = none := by
  induction assets with
  | nil => rfl
  | cons a rest ih =>
    rw [firstPlainZipUrl]
    have : isPlainZip a = false := by
      simp [isPlainZip, h a (by simp)]
    rw [this, if_neg (by simp)]
    exact ih (fun b hb => h b (by simp [hb]))

/-! ## Release-data validation (`_validate_release_data`, lines 272-300) -/

/-- `[a-zA-Z0-9._-]`. -/
def isSafeTagChar (c : Char) : Bool :=
  c.isDigit ∨ ('a' ≤ c ∧ c ≤ 'z') ∨ ('A' ≤ c ∧ c ≤ 'Z') ∨
    c = '.' ∨ c = '_' ∨ c = '-'

/-- `re.match r'^[a-zA-Z0-9._-]+$'` as a full-string test; Python's `$` also
matches just before one trailing newline. -/
def pyFullMatchSafeTag (tag : String) : Bool :=
  let cs := tag.toList
  let cs1 := match cs.getLast? with
    | some c => if c = '\n' then cs.dropLast else cs
    | none => cs
  ¬ cs1 = [] ∧ cs1.all isSafeTagChar

/-- `_validate_release_data`: the tag must be present, non-empty, and made of
safe characters (the model's `assets` field is well-typed by construction, so
the dict/type-shape checks of the source always pass). -/
def _validate_release_data (r : ReleaseData) : Bool :=
  match r.tag_name with
  | none => false
  | some tag => if tag = "" then false else pyFullMatchSafeTag tag

/-! ## Checksum file parsing (`perform_update` lines 610-639) -/

/-- The line scan over the checksum file: blank and `#` lines are skipped; the
first line that is a bare hash or whose last field contains the asset name
ends the scan, yielding the hash when `_is_valid_checksum` accepts it and
nothing when it does not (a warning in the source). -/
def checksumFromLines (asset_name : String) : List String → Option String
  | [] => none
  | line :: rest =>
    if pyStrip line = "" ∨ (pyStrip line).toList.head? = some '#' then
      checksumFromLines asset_name rest
    else
      match pySplitWs (pyStrip line) with
      | [] => checksumFromLines asset_name rest
      | [single] =>
        if _is_valid_checksum single then some single else none
      | first :: more =>
        if containsSub ((first :: more).getLastD "") asset_name then
          if _is_valid_checksum first then some first else none
        else checksumFromLines asset_name rest

/-- `checksum_response.text.strip()` split into lines and scanned. -/
def checksumFromContent (content asset_name : String) : Option String :=
  checksumFromLines asset_name (splitLines (pyStrip content))

/-! ## The update orchestrator (`perform_update`, lines 518-915)

The environment carries the outcome of each effect the function performs:
writability probe, free-space query, checksum fetch, package download
(`DlResponse`), `zipfile.is_zipfile`, the SHA-256 hex digest of the file
(lowercase, as `hexdigest().lower()` produces), the extraction phase outcome,
and the deployment mode with the batch-handoff result.  The trace records the
URLs fetched over the network, in order, and whether `update_pkg.zip` is still
on disk when the function returns. -/

inductive ExtractPhase
  | ok
  | badZip
  | traversal
  | otherError
deriving DecidableEq, Repr

structure UpdateEnv where
  release : ReleaseData
  writable : Bool
  diskQuery : Except Unit Nat
  checksumFetch : Except Unit String
  download : Except Unit DlResponse
  isZipfile : Bool
  fileHash : String
  extractPhase : ExtractPhase
  frozen : Bool
  handoffOk : Bool
deriving DecidableEq, Repr

inductive UpdateFailure
  | invalidReleaseData
  | notWritable
  | insufficientDiskSpace
  | noAssetFound
  | unsafeUrl
  | corruptZip
  | checksumMismatch
  | downloadFailed
  | downloadIncomplete
  | downloadError
  | extractionBadZip
  | extractionTraversal
  | extractionFailed
  | handoffError
deriving DecidableEq, Repr

inductive UpdateOutcome
  | failed (k : UpdateFailure)
  | simulated
  | handoff
deriving DecidableEq, Repr

structure UpdateTrace where
  fetched : List String
  zipOnDisk : Bool
deriving DecidableEq, Repr

/-- Extraction phase and the tail of `perform_update`.  Extraction failures
leave the zip on disk (no handler deletes it); a dev (non-frozen) run cleans
up its artifacts and returns `True`; a frozen run writes and launches the
batch script, then exits. -/
def afterExtract (env : UpdateEnv) (fetched : List String) :
    UpdateOutcome × UpdateTrace :=
  match env.extractPhase with
  | .badZip => (.failed .extractionBadZip, ⟨fetched, true⟩)
  | .traversal => (.failed .extractionTraversal, ⟨fetched, true⟩)
  | .otherError => (.failed .extractionFailed, ⟨fetched, true⟩)
  | .ok =>
    if env.frozen = false then (.simulated, ⟨fetched, false⟩)
    else if env.handoffOk then (.handoff, ⟨fetched, true⟩)
    else (.failed .handoffError, ⟨fetched, true⟩)

/-- Download, zip check and checksum verification (lines 641-703).  The
`except IOError` handler — overrun and incomplete downloads — deletes the
package file; the `RequestException` and generic handlers do not (no file was
created on those paths); an invalid zip and a checksum mismatch delete it
explicitly. -/
def afterDownload (env : UpdateEnv) (expected : Option String)
    (fetched : List String) : UpdateOutcome × UpdateTrace :=
  match (_download_with_progress env.download).result with
  | .error .requestError =>
    (.failed .downloadFailed,
      ⟨fetched, (_download_with_progress env.download).fileCreated⟩)
  | .error (.oversized _) =>
    (.failed .downloadError,
      ⟨fetched, (_download_with_progress env.download).fileCreated⟩)
  | .error (.overrun _ _) => (.failed .downloadIncomplete, ⟨fetched, false⟩)
  | .error (.incomplete _ _) => (.failed .downloadIncomplete, ⟨fetched, false⟩)
  | .ok _ =>
    if env.isZipfile = false then (.failed .corruptZip, ⟨fetched, false⟩)
    else
      match expected with
      | some exp =>
        if env.fileHash == pyLower exp then afterExtract env fetched
        else (.failed .checksumMismatch, ⟨fetched, false⟩)
      | none => afterExtract env fetched

/-- `perform_update release_data`, composed from the phases in source order:
release validation, writability, disk space, asset resolution, package URL
validation, optional checksum fetch (skipped — with a warning, not an
abort — when the checksum URL fails validation), then download and beyond. -/
def perform_update (env : UpdateEnv) : UpdateOutcome × UpdateTrace :=
  if _validate_release_data env.release = false then
    (.failed .invalidReleaseData, ⟨[], false⟩)
  else if env.writable = false then (.failed .notWritable, ⟨[], false⟩)
  else if (_check_disk_space env.diskQuery MIN_FREE_SPACE).1 = false then
    (.failed .insufficientDiskSpace, ⟨[], false⟩)
  else
    match chosenUrl env.release.assets with
    | none => (.failed .noAssetFound, ⟨[], false⟩)
    | some aurl =>
      if _is_valid_url aurl = false then (.failed .unsafeUrl, ⟨[], false⟩)
      else
        match (assetLoop emptySel env.release.assets).checksum_url with
        | none => afterDownload env none [aurl]
        | some curl =>
          if _is_valid_url curl = false then afterDownload env none [aurl]
          else
            match env.checksumFetch with
            | .error _ => afterDownload env none [curl, aurl]
            | .ok content =>
              afterDownload env
                (checksumFromContent content
                  ((chosenName env.release.assets).getD "")) [curl, aurl]

/-! ### Phase lemmas -/

theorem afterExtract_fetched (env : UpdateEnv) (fetched : List String) :
    (afterExtract env fetched).2.fetched = fetched := by
  unfold afterExtract
  cases env.extractPhase <;> first | (split_ifs <;> rfl) | rfl

theorem afterExtract_no_disk (env : UpdateEnv) (fetched : List String) :
    ¬ (afterExtract env fetched).1 = .failed .insufficientDiskSpace := by
  unfold afterExtract
  cases env.extractPhase <;> first | (split_ifs <;> simp) | simp

theorem afterExtract_no_mismatch (env : UpdateEnv) (fetched : List String) :
    ¬ (afterExtract env fetched).1 = .failed .checksumMismatch := by
  unfold afterExtract
  cases env.extractPhase <;> first | (split_ifs <;> simp) | simp

theorem afterDownload_fetched (env : UpdateEnv) (expected : Option String)
    (fetched : List String) :
    (afterDownload env expected fetched).2.fetched = fetched := by
  unfold afterDownload
  split
  any_goals rfl
  split_ifs with h1
  · rfl
  · split
    · split_ifs with h2
      · exact afterExtract_fetched env fetched
      · rfl
    · exact afterExtract_fetched env fetched

theorem afterDownload_no_disk (env : UpdateEnv) (expected : Option String)
    (fetched : List String) :
    ¬ (afterDownload env expected fetched).1 = .failed .insufficientDiskSpace := by
  unfold afterDownload
  split
  any_goals simp
  split_ifs with h1
  · simp
  · split
    · split_ifs with h2
      · exact afterExtract_no_disk env fetched
      · simp
    · exact afterExtract_no_disk env fetched

theorem afterDownload_none_no_mismatch (env : UpdateEnv)
    (fetched : List String) :
    ¬ (afterDownload env none fetched).1 = .failed .checksumMismatch := by
  unfold afterDownload
  split
  any_goals simp
  split_ifs with h1
  · simp
  · exact afterExtract_no_mismatch env fetched

theorem afterDownload_ioerror (env : UpdateEnv) (expected : Option String)
    (fetched : List String) (e : DlError)
    (hdl : (_download_with_progress env.download).result = .error e)
    (hio : e.isIOError = true) :
    afterDownload env expected fetched =
      (.failed .downloadIncomplete, ⟨fetched, false⟩) := by
  unfold afterDownload
  rw [hdl]
  cases e with
  | overrun g t => rfl
  | incomplete g t => rfl
  | requestError => simp [DlError.isIOError] at hio
  | oversized t => simp [DlError.isIOError] at hio

/-! ### C10: disk-space query failure fails open -/

/-- **C10**: when the platform free-space query raises, `_check_disk_space`
swallows the exception and reports success with 0 bytes, so `perform_update`
never fails with the insufficient-disk-space diagnostic in that situation —
the update proceeds past the preflight disk check. -/
theorem disk_query_failure_fails_open :
    (∀ req : Nat, _check_disk_space (.error ()) req = (true, 0)) ∧
    (∀ env : UpdateEnv, env.diskQuery = .error () →
      ¬ (perform_update env).1 = .failed .insufficientDiskSpace) := by
  constructor
  · intro req
    rfl
  · intro env henv
    unfold perform_update
    split_ifs with hv hw hd
    · simp
    · simp
    · rw [henv] at hd
      simp [_check_disk_space] at hd
    · split
      · simp
      · split_ifs with hu
        · simp
        · split
          · exact afterDownload_no_disk env none _
          · split_ifs with hcu
            · exact afterDownload_no_disk env none _
            · split
              · exact afterDownload_no_disk env none _
              · exact afterDownload_no_disk env _ _

/-- A release carrying one well-named, well-addressed package asset. -/
def okRelease : ReleaseData :=
  ⟨some "v2.0.0",
    [⟨"Release.zip",
      "https://github.com/dlanz1/monitor-profile-swapper/releases/download/v2.0.0/Release.zip"⟩]⟩

/-- An environment in which every effect succeeds. -/
def okEnv : UpdateEnv :=
  ⟨okRelease, true, .ok (200 * 1024 * 1024), .ok "", .ok ⟨2, [2]⟩, true, "",
    .ok, false, true⟩

/-- **C10** witness: a concrete environment whose disk query raises. -/
theorem disk_query_failure_fails_open_witness :
    _check_disk_space (.error ()) MIN_FREE_SPACE = (true, 0) ∧
    ¬ (perform_update { okEnv with diskQuery := .error () }).1 =
      .failed .insufficientDiskSpace :=
  ⟨disk_query_failure_fails_open.1 MIN_FREE_SPACE,
    disk_query_failure_fails_open.2 { okEnv with diskQuery := .error () } rfl⟩

/-! ### C2: URL validation gates -/

/-- **C2** (amended): an invalid *package* URL aborts the update before any
network call — `perform_update` returns the unsafe-URL failure with an empty
fetch trace; an invalid *checksum* URL is never fetched and checksum
verification is silently skipped (the update cannot fail with a checksum
mismatch), but the update itself proceeds.  The host allow-list is a plain
suffix test (`endswith "github.com"` / `"githubusercontent.com"`), which also
admits look-alike hosts such as `evilgithub.com`. -/
theorem url_validation_gates (env : UpdateEnv) :
    (∀ aurl, _validate_release_data env.release = true → env.writable = true →
      (_check_disk_space env.diskQuery MIN_FREE_SPACE).1 = true →
      chosenUrl env.release.assets = some aurl →
      _is_valid_url aurl = false →
      perform_update env = (.failed .unsafeUrl, ⟨[], false⟩)) ∧
    (∀ aurl curl, chosenUrl env.release.assets = some aurl →
      (assetLoop emptySel env.release.assets).checksum_url = some curl →
      _is_valid_url curl = false →
      ¬ curl ∈ (perform_update env).2.fetched ∧
      ¬ (perform_update env).1 = .failed .checksumMismatch) := by
  constructor
  · intro aurl hv hw hd hc hu
    unfold perform_update
    rw [hv, hw, hd, hc]
    simp [hu]
  · intro aurl curl hc hcs hcu
    unfold perform_update
    split_ifs with hv hw hd
    · simp
    · simp
    · simp
    · rw [hc]
      simp only []
      by_cases hu : _is_valid_url aurl = false
      · rw [if_pos hu]
        simp
      · rw [if_neg hu, hcs]
        simp only []
        rw [if_pos hcu]
        constructor
        · rw [afterDownload_fetched]
          intro hmem
          rw [List.mem_singleton] at hmem
          subst hmem
          rw [Bool.not_eq_false] at hu
          rw [hu] at hcu
          cases hcu
        · exact afterDownload_none_no_mismatch env [aurl]

/-- A release whose checksum sidecar points at a non-HTTPS host. -/
def badChecksumRelease : ReleaseData :=
  ⟨some "v2.0.0",
    [⟨"sha256.txt", "http://evil.example/sha256.txt"⟩,
      ⟨"Release.zip",
        "https://github.com/dlanz1/monitor-profile-swapper/releases/download/v2.0.0/Release.zip"⟩]⟩

/-- **C2** witness: the two gates at concrete environments. -/
theorem url_validation_gates_witness :
    perform_update { okEnv with
      release := ⟨some "v2.0.0",
        [⟨"Release.zip", "http://github.com/u/r/Release.zip"⟩]⟩ } =
      (.failed .unsafeUrl, ⟨[], false⟩) ∧
    (¬ "http://evil.example/sha256.txt" ∈
      (perform_update { okEnv with release := badChecksumRelease }).2.fetched ∧
    ¬ (perform_update { okEnv with release := badChecksumRelease }).1 =
      .failed .checksumMismatch) :=
  ⟨(url_validation_gates _).1 "http://github.com/u/r/Release.zip"
      (by decide) rfl (by decide) (by decide) (by decide),
    (url_validation_gates _).2
      "https://github.com/dlanz1/monitor-profile-swapper/releases/download/v2.0.0/Release.zip"
      "http://evil.example/sha256.txt" (by decide) (by decide) (by decide)⟩

/-- **C2** counterexample to the claim as stated: with an invalid checksum
URL in the release, the update does not abort — it runs to (simulated)
success, merely skipping checksum verification; only the package URL is a
hard gate. -/
theorem url_validation_counterexample :
    _is_valid_url "http://evil.example/sha256.txt" = false ∧
    perform_update { okEnv with release := badChecksumRelease } =
      (.simulated,
        ⟨["https://github.com/dlanz1/monitor-profile-swapper/releases/download/v2.0.0/Release.zip"],
          false⟩) := by
  constructor
  · decide
  · decide

/-! ### C3: asset choice -/

/-- **C3** (amended): the chosen download URL is that of the *last* `.zip`
asset whose lowered name contains the repository identifier or the word
"release" (the loop overwrites its slot on every hit — "Don't break"); only
when no such candidate exists is the first remaining `.zip` asset taken, in
list order; and when no `.zip` asset exists at all the update fails with the
no-asset-found diagnostic. -/
theorem asset_choice_characterization :
    (∀ assets : List ReleaseAsset, chosenUrl assets =
      match lastPreferredUrl assets with
      | some u => some u
      | none => firstPlainZipUrl assets) ∧
    (∀ env : UpdateEnv, _validate_release_data env.release = true →
      env.writable = true →
      (_check_disk_space env.diskQuery MIN_FREE_SPACE).1 = true →
      (∀ a ∈ env.release.assets, endsWithStr a.name ".zip" = false) →
      perform_update env = (.failed .noAssetFound, ⟨[], false⟩)) := by
  have hchar : ∀ assets : List ReleaseAsset, chosenUrl assets =
      match lastPreferredUrl assets with
      | some u => some u
      | none => firstPlainZipUrl assets := by
    intro assets
    unfold chosenUrl
    simp only []
    have ha := assetLoop_asset_url emptySel assets
    have hf := assetLoop_fallback_url emptySel assets
    cases hlp : lastPreferredUrl assets with
    | some u =>
      rw [hlp] at ha
      rw [ha]
    | none =>
      rw [hlp] at ha
      rw [ha]
      simp only []
      rw [hf]
      rfl
  constructor
  · exact hchar
  · intro env hv hw hd hnone
    have hcu : chosenUrl env.release.assets = none := by
      rw [hchar env.release.assets,
        lastPreferredUrl_none_of_no_zip env.release.assets hnone]
      exact firstPlainZipUrl_none_of_no_zip env.release.assets hnone
    unfold perform_update
    rw [hv, hw, hd, hcu]
    simp

/-- **C3** witness: the characterization at a two-asset release, and the
no-asset failure at a zip-less release. -/
theorem asset_choice_characterization_witness :
    chosenUrl badChecksumRelease.assets =
      (match lastPreferredUrl badChecksumRelease.assets with
       | some u => some u
       | none => firstPlainZipUrl badChecksumRelease.assets) ∧
    perform_update { okEnv with
      release := ⟨some "v2.0.0", [⟨"readme.txt", "https://github.com/u/r/readme.txt"⟩]⟩ } =
      (.failed .noAssetFound, ⟨[], false⟩) :=
  ⟨asset_choice_characterization.1 badChecksumRelease.assets,
    asset_choice_characterization.2 _ (by decide) rfl (by decide)
      (by decide)⟩

/-- Two preferred zips, in order. -/
def twoPreferredAssets : List ReleaseAsset :=
  [⟨"a-release.zip", "https://github.com/u/r/a-release.zip"⟩,
    ⟨"b-release.zip", "https://github.com/u/r/b-release.zip"⟩]

/-- **C3** counterexample to the claim as stated: with two matching `.zip`
candidates, the code downloads the *second* (last) one, while the claim says
the *first* is chosen. -/
theorem asset_choice_counterexample :
    chosenUrl twoPreferredAssets = some "https://github.com/u/r/b-release.zip" ∧
    firstPreferredUrl twoPreferredAssets =
      some "https://github.com/u/r/a-release.zip" ∧
    ¬ "https://github.com/u/r/a-release.zip" =
      "https://github.com/u/r/b-release.zip" := by
  refine ⟨by decide, by decide, by decide⟩

/-! ### C8: incomplete and overrunning downloads -/

/-- **C8**: (1) when the declared length is non-zero and the stream completes
with a byte count different from it, the download fails with the
incomplete-download error; (2) while streaming, the first chunk that pushes
the received bytes above 110% of the declared length aborts the download on
the spot, with the rest of the stream unconsumed; (3) in `perform_update`,
either of these `IOError`s yields the download-incomplete failure and the
partial package file is deleted. -/
theorem download_incomplete_enforcement :
    (∀ resp : DlResponse, ∀ w, resp.contentLength ≤ MAX_DOWNLOAD_SIZE →
      0 < resp.contentLength →
      dlLoop resp.contentLength 0 resp.chunks = (none, w) →
      ¬ w = resp.contentLength →
      (_download_with_progress (.ok resp)).result =
        .error (.incomplete w resp.contentLength)) ∧
    (∀ resp : DlResponse, resp.contentLength ≤ MAX_DOWNLOAD_SIZE →
      0 < resp.contentLength →
      11 * resp.contentLength < 10 * resp.chunks.sum →
      ∃ pre ch post, resp.chunks = pre ++ ch :: post ∧ ¬ ch = 0 ∧
        (_download_with_progress (.ok resp)).result =
          .error (.overrun (pre.sum + ch) resp.contentLength) ∧
        10 * pre.sum ≤ 11 * resp.contentLength ∧
        11 * resp.contentLength < 10 * (pre.sum + ch)) ∧
    (∀ env : UpdateEnv, ∀ e : DlError, ∀ aurl,
      (_download_with_progress env.download).result = .error e →
      e.isIOError = true →
      _validate_release_data env.release = true → env.writable = true →
      (_check_disk_space env.diskQuery MIN_FREE_SPACE).1 = true →
      chosenUrl env.release.assets = some aurl → _is_valid_url aurl = true →
      (perform_update env).1 = .failed .downloadIncomplete ∧
      (perform_update env).2.zipOnDisk = false) := by
  refine ⟨?_, ?_, ?_⟩
  · intro resp w hle hpos hrun hne
    unfold _download_with_progress
    simp only []
    rw [if_neg (by omega), hrun]
    simp only []
    rw [if_pos ⟨hpos, hne⟩]
  · intro resp hle hpos hover
    obtain ⟨pre, ch, post, heq, hch, hrun, hsle, hsgt⟩ :=
      dlLoop_overrun resp.contentLength 0 resp.chunks hpos (by simpa using hover)
        (by omega)
    refine ⟨pre, ch, post, heq, hch, ?_, by simpa using hsle,
      by simpa using hsgt⟩
    unfold _download_with_progress
    simp only []
    rw [if_neg (by omega), hrun]
    simp
  · intro env e aurl hdl hio hv hw hd hc hu
    unfold perform_update
    split_ifs with h1 h2 h3
    · rw [hv] at h1; simp at h1
    · rw [hw] at h2; simp at h2
    · rw [hd] at h3; simp at h3
    · rw [hc]
      simp only []
      rw [if_neg (by rw [hu]; simp)]
      cases hcs : (assetLoop emptySel env.release.assets).checksum_url with
      | none =>
        simp only []
        rw [afterDownload_ioerror env none [aurl] e hdl hio]
        exact ⟨rfl, rfl⟩
      | some curl =>
        simp only []
        by_cases hcu : _is_valid_url curl = false
        · rw [if_pos hcu, afterDownload_ioerror env none [aurl] e hdl hio]
          exact ⟨rfl, rfl⟩
        · rw [if_neg hcu]
          cases hcf : env.checksumFetch with
          | error u =>
            simp only []
            rw [afterDownload_ioerror env none [curl, aurl] e hdl hio]
            exact ⟨rfl, rfl⟩
          | ok content =>
            simp only []
            rw [afterDownload_ioerror env _ [curl, aurl] e hdl hio]
            exact ⟨rfl, rfl⟩

/-- **C8** witness: a declared length of 10 with a 5-byte stream is rejected
as incomplete; a 12-byte first chunk against a declared length of 10 aborts
as an overrun; and the incomplete download makes `perform_update` fail with
the file deleted. -/
theorem download_incomplete_enforcement_witness :
    (_download_with_progress (.ok ⟨10, [5]⟩)).result = .error (.incomplete 5 10) ∧
    (∃ pre ch post, ([12] : List Nat) = pre ++ ch :: post ∧ ¬ ch = 0 ∧
      (_download_with_progress (.ok ⟨10, [12]⟩)).result =
        .error (.overrun (pre.sum + ch) 10) ∧
      10 * pre.sum ≤ 11 * 10 ∧ 11 * 10 < 10 * (pre.sum + ch)) ∧
    ((perform_update { okEnv with download := .ok ⟨10, [5]⟩ }).1 =
        .failed .downloadIncomplete ∧
      (perform_update { okEnv with download := .ok ⟨10, [5]⟩ }).2.zipOnDisk =
        false) :=
  ⟨download_incomplete_enforcement.1 ⟨10, [5]⟩ 5 (by decide) (by decide)
      (by decide) (by decide),
    download_incomplete_enforcement.2.1 ⟨10, [12]⟩ (by decide) (by decide)
      (by decide),
    download_incomplete_enforcement.2.2 _ (.incomplete 5 10)
      "https://github.com/dlanz1/monitor-profile-swapper/releases/download/v2.0.0/Release.zip"
      (by decide) (by decide) (by decide) rfl (by decide) (by decide)
      (by decide)⟩

/-! ## Folder flattening (`_flatten_nested_folder`, lines 422-465)

The filesystem slice the function touches: the extraction root's children,
each a file or a directory with its own children.  `os.listdir` is the list
of names in stored order; `shutil.move` appends the moved entry at the
destination; the `for` loop iterates over the snapshot of the wrapper's names
taken before any move.  Exceptions inside the `try` (for instance a source
that vanished because the destination-cleanup `rmtree` deleted the wrapper
itself) are caught: the function returns `False` with the tree in whatever
state the partial run left it. -/

inductive FsEntry
  | file
  | dir (children : List (String × FsEntry))

def lookupEntry (name : String) : List (String × FsEntry) → Option FsEntry
  | [] => none
  | (n, e) :: rest => if n = name then some e else lookupEntry name rest

def removeEntry (name : String) (l : List (String × FsEntry)) :
    List (String × FsEntry) :=
  l.filter (fun p => ¬ p.1 = name)

def setDirChildren (name : String) (ch : List (String × FsEntry))
    (l : List (String × FsEntry)) : List (String × FsEntry) :=
  l.map (fun p => if p.1 = name then (p.1, .dir ch) else p)

/-- The move loop over the snapshot of the wrapper's child names.  For each
item: delete a same-named entry already at the root (`rmtree`/`os.remove`),
then `shutil.move` the child up — which raises (`false`, caught upstream)
when the source or the wrapper has vanished. -/
def flattenLoop (wrapper : String) (root : List (String × FsEntry)) :
    List String → Bool × List (String × FsEntry)
  | [] => (true, root)
  | item :: rest =>
    let root1 := match lookupEntry item root with
      | some _ => removeEntry item root
      | none => root
    match lookupEntry wrapper root1 with
    | some (.dir ch) =>
      match lookupEntry item ch with
      | some e =>
        flattenLoop wrapper
          (setDirChildren wrapper (removeEntry item ch) root1 ++ [(item, e)])
          rest
      | none => (false, root1)
    | _ => (false, root1)

/-- `_flatten_nested_folder extract_folder`: acts only when the root holds
exactly one entry and it is a directory; afterwards the emptied wrapper is
removed with `rmtree` (raising — `false` — if it vanished mid-loop). -/
def _flatten_nested_folder (root : List (String × FsEntry)) :
    Bool × List (String × FsEntry) :=
  match root with
  | [(n, .dir ch)] =>
    match flattenLoop n root (ch.map (fun p => p.1)) with
    | (true, root') =>
      match lookupEntry n root' with
      | some _ => (true, removeEntry n root')
      | none => (false, root')
    | (false, root') => (false, root')
  | _ => (false, root)

/-! ### Flattening lemmas -/

theorem lookupEntry_not_mem (name : String) (l : List (String × FsEntry))
    (h : name ∉ l.map Prod.fst) : lookupEntry name l = none := by
  induction l with
  | nil => rfl
  | cons p rest ih =>
    obtain ⟨pn, pe⟩ := p
    rw [lookupEntry, if_neg, ih]
    · intro hmem
      exact h (by simp [hmem])
    · intro heq
      exact h (by simp [heq])

theorem removeEntry_not_mem (name : String) (l : List (String × FsEntry))
    (h : name ∉ l.map Prod.fst) : removeEntry name l = l := by
  induction l with
  | nil => rfl
  | cons p rest ih =>
    obtain ⟨pn, pe⟩ := p
    rw [removeEntry, List.filter_cons]
    rw [if_pos]
    · rw [show rest.filter (fun p => ¬ p.1 = name) = removeEntry name rest
        from rfl, ih (fun hmem => h (by simp [hmem]))]
    · simp only [decide_eq_true_eq]
      intro heq
      exact h (by simp [heq])

theorem setDirChildren_not_mem (name : String)
    (ch : List (String × FsEntry)) (l : List (String × FsEntry))
    (h : name ∉ l.map Prod.fst) : setDirChildren name ch l = l := by
  induction l with
  | nil => rfl
  | cons p rest ih =>
    obtain ⟨pn, pe⟩ := p
    rw [setDirChildren, List.map_cons,
      if_neg (fun heq => h (by simp; exact Or.inl heq.symm))]
    rw [show rest.map _ = setDirChildren name ch rest from rfl,
      ih (fun hmem => h (by simp [hmem]))]

/-- Loop invariant: processing the names of the pending children `pend` of
the wrapper, with `moved` already lifted to the root, succeeds and moves
everything, provided names are unique and nothing collides with the wrapper's
own name. -/
theorem flattenLoop_clean (n : String) (pend : List (String × FsEntry)) :
    ∀ moved : List (String × FsEntry),
    (pend.map Prod.fst).Nodup → n ∉ pend.map Prod.fst →
    (∀ p ∈ moved, p.1 ∉ pend.map Prod.fst ∧ ¬ p.1 = n) →
    flattenLoop n ((n, .dir pend) :: moved) (pend.map Prod.fst) =
      (true, (n, .dir []) :: (moved ++ pend)) := by
  induction pend with
  | nil =>
    intro moved _ _ _
    simp [flattenLoop]
  | cons q qs ih =>
    intro moved hnodup hn hmoved
    obtain ⟨qn, qe⟩ := q
    have hqn_mem : qn ∈ ((qn, qe) :: qs).map Prod.fst := by simp
    have hroot1 : lookupEntry qn ((n, FsEntry.dir ((qn, qe) :: qs)) :: moved)
        = none := by
      apply lookupEntry_not_mem
      simp only [List.map_cons, List.mem_cons]
      rintro (heq | hmem)
      · exact hn (by simp [← heq])
      · obtain ⟨p, hp, hpeq⟩ := List.mem_map.mp hmem
        exact (hmoved p hp).1 (by simp [hpeq])
    have hqs_nodup : (qs.map Prod.fst).Nodup := by
      simpa using hnodup.of_cons
    have hqn_qs : qn ∉ qs.map Prod.fst := by
      have := hnodup
      simp only [List.map_cons, List.nodup_cons] at this
      exact this.1
    rw [List.map_cons, flattenLoop]
    simp only [hroot1]
    rw [show lookupEntry n ((n, FsEntry.dir ((qn, qe) :: qs)) :: moved) =
      some (FsEntry.dir ((qn, qe) :: qs)) from by rw [lookupEntry, if_pos rfl]]
    simp only []
    rw [show lookupEntry qn ((qn, qe) :: qs) = some qe from by
      rw [lookupEntry, if_pos rfl]]
    simp only []
    have hrem : removeEntry qn ((qn, qe) :: qs) = qs := by
      rw [removeEntry, List.filter_cons, if_neg (by simp)]
      exact removeEntry_not_mem qn qs hqn_qs
    have hset : setDirChildren n qs ((n, FsEntry.dir ((qn, qe) :: qs)) :: moved)
        = (n, FsEntry.dir qs) :: moved := by
      rw [setDirChildren, List.map_cons, if_pos rfl]
      rw [show moved.map _ = setDirChildren n qs moved from rfl]
      rw [setDirChildren_not_mem n qs moved]
      intro hmem
      obtain ⟨p, hp, hpeq⟩ := List.mem_map.mp hmem
      exact (hmoved p hp).2 hpeq
    rw [hrem, hset]
    have := ih (moved ++ [(qn, qe)]) hqs_nodup
      (fun hmem => hn (by simp [hmem]))
      (by
        intro p hp
        rcases List.mem_append.mp hp with hp | hp
        · have := hmoved p hp
          refine ⟨fun hmem => this.1 (by simp [hmem]), this.2⟩
        · rw [List.mem_singleton] at hp
          subst hp
          refine ⟨hqn_qs, fun heq => hn (by simp; exact Or.inl heq.symm)⟩)
    rw [show (n, FsEntry.dir qs) :: moved ++ [(qn, qe)] =
      (n, FsEntry.dir qs) :: (moved ++ [(qn, qe)]) from rfl, this]
    rw [List.append_assoc]
    rfl

/-- **C9** (amended): `_flatten_nested_folder` moves every child of the
single top-level directory up one level and deletes the emptied wrapper,
returning true, when the extraction root contains exactly one top-level entry
that is a directory, *provided* no child of that directory bears the
wrapper's own name (child names being unique, as on a real filesystem); if
the root contains zero or more than one entry, or the single entry is a file,
it changes nothing and returns false.  It never raises, but an internal
failure returns false with the tree in its partial state rather than
untouched — in the excluded self-named-child case the destination cleanup
deletes the wrapper mid-loop and the function can empty the root. -/
theorem flatten_nested_folder_correct :
    (∀ (n : String) (ch : List (String × FsEntry)),
      (ch.map Prod.fst).Nodup → n ∉ ch.map Prod.fst →
      _flatten_nested_folder [(n, FsEntry.dir ch)] = (true, ch)) ∧
    (∀ root : List (String × FsEntry),
      (∀ n ch, ¬ root = [(n, FsEntry.dir ch)]) →
      _flatten_nested_folder root = (false, root)) := by
  constructor
  · intro n ch hnodup hn
    unfold _flatten_nested_folder
    simp only []
    rw [show ch.map (fun p => p.1) = ch.map Prod.fst from rfl,
      flattenLoop_clean n ch [] hnodup hn (by simp)]
    simp only [List.nil_append]
    rw [show lookupEntry n ((n, FsEntry.dir []) :: ch) =
      some (FsEntry.dir []) from by rw [lookupEntry, if_pos rfl]]
    simp only []
    rw [removeEntry, List.filter_cons, if_neg (by simp)]
    rw [show ch.filter (fun p => ¬ p.1 = n) = removeEntry n ch from rfl,
      removeEntry_not_mem n ch hn]
  · intro root hshape
    match root with
    | [] => rfl
    | [(n, .file)] => rfl
    | [(n, .dir ch)] => exact absurd rfl (hshape n ch)
    | (pn, .file) :: q :: rest => rfl
    | (pn, .dir ch) :: q :: rest => rfl

/-- **C9** witness: a wrapper `repo-v1.0.0/` holding one file flattens to
that file with the wrapper gone; two top-level files are left unchanged. -/
theorem flatten_nested_folder_correct_witness :
    _flatten_nested_folder [("repo-v1.0.0",
        FsEntry.dir [("file.txt", FsEntry.file)])] =
      (true, [("file.txt", FsEntry.file)]) ∧
    _flatten_nested_folder [("a.txt", FsEntry.file), ("b.txt", FsEntry.file)] =
      (false, [("a.txt", FsEntry.file), ("b.txt", FsEntry.file)]) :=
  ⟨flatten_nested_folder_correct.1 "repo-v1.0.0" [("file.txt", FsEntry.file)]
      (by decide) (by decide),
    flatten_nested_folder_correct.2 _ (by intro n ch h; cases h)⟩

/-- **C9** counterexample to the claim as stated: a root holding exactly one
top-level entry, a directory `w/` that contains a child also named `w`.  The
claim requires flattening to occur and `true` to be returned (and, were an
internal failure to happen, the tree to be left as-is).  Instead the
destination-cleanup `rmtree` deletes the wrapper itself, the subsequent
`shutil.move` raises, and the function returns `false` with the root emptied
— the tree is destroyed, not flattened and not left as-is. -/
theorem flatten_self_named_counterexample :
    _flatten_nested_folder [("w", FsEntry.dir [("w", FsEntry.file)])] =
      (false, []) ∧
    [("w", FsEntry.dir [("w", FsEntry.file)])].length = 1 := by
  constructor
  · rfl
  · rfl

end Updater
